import Mathlib

/-!
Shallow embedding of the analytical core of the firewall-rule-optimizer
repository (`optimizer/parser.py` data model, `optimizer/analyzer.py`
detection and scoring, `optimizer/recommender.py` plan generation and
application), together with theorems settling the specification claims.

Python `Optional[str]` fields become `Option String`; Python float scores
become `Int` (every score value produced by the code is integral: 100 minus
integer penalties, clamped); Python dicts become insertion-ordered
association lists (matching CPython dict semantics used by the code).
-/

namespace FirewallOpt

/-- A value stored in the opaque `parameters` dict of a rule: the Python
code stores either a token string or the boolean `True` (for flags). -/
inductive ParamVal where
  | str (s : String)
  | flag
  deriving Repr, DecidableEq

/-- `FirewallRule` dataclass from `optimizer/parser.py`.  Field for field the
declared dataclass fields (which are exactly the fields Python `==` compares);
the derived `action` attribute set in `__post_init__` is not a dataclass field
and does not participate in equality, so it is omitted. -/
structure FirewallRule where
  table : String := "filter"
  chain : String := ""
  target : String := ""
  protocol : Option String := none
  source_ip : Option String := none
  destination_ip : Option String := none
  source_port : Option String := none
  destination_port : Option String := none
  interface_in : Option String := none
  interface_out : Option String := none
  state : Option String := none
  module : Option String := none
  jump_target : Option String := none
  line_number : Nat := 0
  raw_rule : String := ""
  parameters : List (String × ParamVal) := []
  deriving Repr, DecidableEq

/-- `ChainInfo` dataclass from `optimizer/parser.py` (policy kept as its
string form). -/
structure ChainInfo where
  name : String
  policy : String
  packet_count : Nat := 0
  byte_count : Nat := 0
  is_user_defined : Bool := false
  deriving Repr, DecidableEq

/-- `FirewallConfig` dataclass: `tables` is a dict table-name ↦ dict
chain-name ↦ rule list; both dicts are insertion ordered, modelled as
association lists. -/
structure FirewallConfig where
  tables : List (String × List (String × List FirewallRule)) := []
  chains : List (String × ChainInfo) := []
  comments : List String := []
  deriving Repr, DecidableEq

/-- `IssueType` enum from `optimizer/analyzer.py`. -/
inductive IssueType where
  | redundant
  | conflicting
  | unreachable
  | inefficient_order
  | security_risk
  | overly_permissive
  | missing_log
  deriving Repr, DecidableEq

/-- `IssueSeverity` enum from `optimizer/analyzer.py`. -/
inductive IssueSeverity where
  | low
  | medium
  | high
  | critical
  deriving Repr, DecidableEq

/-- `RuleIssue` dataclass (confidence is always the float 1.0 in the code;
modelled as the integer 1). -/
structure RuleIssue where
  issue_type : IssueType
  severity : IssueSeverity
  description : String
  affected_rules : List FirewallRule
  recommendation : String
  confidence : Int := 1
  deriving Repr, DecidableEq

/-- `AnalysisResult` dataclass. -/
structure AnalysisResult where
  issues : List RuleIssue := []
  statistics : List (String × Nat) := []
  rule_efficiency_score : Int := 0
  security_score : Int := 0
  deriving Repr, DecidableEq

/-! ### Range algebra: model of Python `ipaddress.ip_network` (IPv4) and of
the integer port parsing done in `_port_contains`.

`ipaddress.ip_network(s, strict=False)` is standard-library code (not part of
this repository); the analyzer always passes it a string, and CPython's
string path (`_ip_int_from_string`) accepts exactly a dotted quad of four
octets, optionally followed by `/p` with a digits-only prefix length (the
bare-integer fast path applies only to `int` inputs, which never occur
here).  That string domain is modelled for IPv4; inputs outside it (IPv6,
netmask notation, ...) are treated as parse failures, as CPython raises
`ValueError` on them or they are declared outside the modelled domain. -/

/-- Python `s.split(sep)` for a one-character separator, over the character
list of the string (structural recursion, so that the kernel can evaluate
it; Lean's own `String.splitOn` is defined by well-founded recursion). -/
def splitOnChar (c : Char) : List Char → List (List Char)
  | [] => [[]]
  | x :: xs =>
    match splitOnChar c xs with
    | [] => [[x]]
    | h :: t => if x == c then [] :: h :: t else (x :: h) :: t

/-- Digit accumulator for `charsToNat?`. -/
def charsToNatAux (acc : Nat) : List Char → Option Nat
  | [] => some acc
  | c :: cs => if c.isDigit then charsToNatAux (acc * 10 + (c.toNat - 48)) cs else none

/-- Decimal digit-string to `Nat`: nonempty and digits only — the check
CPython's `ipaddress` applies to octets (`_parse_octet`) and prefix lengths
(`_prefix_from_prefix_string`), both of which insist on ASCII digits before
converting. -/
def charsToNat? (l : List Char) : Option Nat :=
  match l with
  | [] => none
  | _ => charsToNatAux 0 l

/-- Whitespace stripped by Python `int(s)` around the numeral. -/
def isPySpace (c : Char) : Bool :=
  c == ' ' || c == '\t' || c == '\n' || c == '\r' || c == '\x0b' || c == '\x0c'

/-- Strip Python-`int` whitespace from both ends of a token. -/
def stripPySpace (l : List Char) : List Char :=
  ((l.dropWhile isPySpace).reverse.dropWhile isPySpace).reverse

/-- Digit run of a Python `int` literal after its first digit: single
underscores are permitted, but only between two digits. -/
def digitsUnderscore (acc : Nat) : List Char → Option Nat
  | [] => some acc
  | '_' :: c :: cs =>
    if c.isDigit then digitsUnderscore (acc * 10 + (c.toNat - 48)) cs else none
  | c :: cs =>
    if c.isDigit then digitsUnderscore (acc * 10 + (c.toNat - 48)) cs else none

/-- An unsigned Python `int` numeral: a leading digit, then digits with
underscores only between digits. -/
def pyIntDigits (l : List Char) : Option Nat :=
  match l with
  | [] => none
  | c :: cs => if c.isDigit then digitsUnderscore (c.toNat - 48) cs else none

/-- Model of Python `int(s)`: surrounding whitespace stripped, an optional
sign, then a digit run with underscores allowed between digits. -/
def charsToInt? (l : List Char) : Option Int :=
  match stripPySpace l with
  | '-' :: rest => (pyIntDigits rest).map (fun n => -(n : Int))
  | '+' :: rest => (pyIntDigits rest).map (fun n => (n : Int))
  | l' => (pyIntDigits l').map (fun n => (n : Int))

/-- One dotted-quad octet: decimal digits, value ≤ 255, no leading zero
(CPython ≥ 3.9 rejects leading zeros in octets). -/
def parseOctet (l : List Char) : Option Nat :=
  match charsToNat? l with
  | some n =>
    if n ≤ 255 && (l.length = 1 || l.head? ≠ some '0') then some n else none
  | none => none

/-- An IPv4 address string: exactly four dotted octets, as CPython's
`_ip_int_from_string` demands (any other split, including a bare decimal
token such as `"123"`, raises `ValueError` — the integer fast path of
`ip_network` applies only to `int` objects, never to the strings this
program passes). -/
def parseIPv4Addr (l : List Char) : Option Nat :=
  match splitOnChar '.' l with
  | [a, b, c, d] => do
    let x ← parseOctet a
    let y ← parseOctet b
    let z ← parseOctet c
    let w ← parseOctet d
    pure (((x * 256 + y) * 256 + z) * 256 + w)
  | _ => none

/-- An IPv4 network: masked network address and prefix length. -/
structure IPv4Net where
  network : Nat
  plen : Nat
  deriving Repr, DecidableEq

/-- Zero out the host bits of `addr` for a given network size `pl`. -/
def maskAddr (addr pl : Nat) : Nat :=
  addr / 2 ^ (32 - pl) * 2 ^ (32 - pl)

/-- Model of `ipaddress.ip_network(s, strict=False)` (IPv4 subset):
`none` plays the role of the `ValueError` the Python call raises. -/
def ip_network (s : String) : Option IPv4Net :=
  match splitOnChar '/' s.data with
  | [a] => (parseIPv4Addr a).map fun n => ⟨n, 32⟩
  | [a, p] => do
    let n ← parseIPv4Addr a
    let pl ← charsToNat? p
    if pl ≤ 32 then pure ⟨maskAddr n pl, pl⟩ else none
  | _ => none

/-- Broadcast (highest) address of a network. -/
def IPv4Net.broadcast (n : IPv4Net) : Nat :=
  n.network + 2 ^ (32 - n.plen) - 1

/-- `net1.overlaps(net2)`: the two CIDR intervals intersect. -/
def netOverlaps (a b : IPv4Net) : Bool :=
  a.network ≤ b.broadcast && b.network ≤ a.broadcast

/-- `general.supernet_of(specific) or general == specific`: the CIDR interval
of `g` contains that of `s`. -/
def netSupernetOf (g s : IPv4Net) : Bool :=
  g.network ≤ s.network && s.broadcast ≤ g.broadcast

/-- `_ip_ranges_overlap` from `optimizer/analyzer.py`: parse both sides;
a `ValueError` on either side is caught and answered with `True`. -/
def ip_ranges_overlap (ip1 ip2 : String) : Bool :=
  match ip_network ip1, ip_network ip2 with
  | some n1, some n2 => netOverlaps n1 n2
  | _, _ => true

/-- `_ip_contains` from `optimizer/analyzer.py`: `None` general means "any";
`None` specific under a concrete general is never contained; parse failure
falls back to string equality. -/
def ip_contains (general specific : Option String) : Bool :=
  match general with
  | none => true
  | some g =>
    match specific with
    | none => false
    | some s =>
      match ip_network g, ip_network s with
      | some gn, some sn => netSupernetOf gn sn
      | _, _ => g == s

/-- The port-specification parse performed inside the `try` block of
`_port_contains`: `a:b` becomes the interval `(a, b)`; a single token the
degenerate interval; any failure (non-integer token, more than one `:`)
raises `ValueError`, modelled as `none`. -/
def parsePortRange (s : String) : Option (Int × Int) :=
  if s.data.contains ':' then
    match splitOnChar ':' s.data with
    | [a, b] => do
      let x ← charsToInt? a
      let y ← charsToInt? b
      pure (x, y)
    | _ => none
  else
    (charsToInt? s.data).map fun n => (n, n)

/-- `_port_contains` from `optimizer/analyzer.py`. -/
def port_contains (general specific : Option String) : Bool :=
  match general with
  | none => true
  | some g =>
    match specific with
    | none => false
    | some s =>
      match parsePortRange g, parsePortRange s with
      | some (gs, ge), some (ss, se) => gs ≤ ss && se ≤ ge
      | _, _ => g == s

/-! ### Issue detectors (`FirewallAnalyzer` methods) -/

/-- Targets treated as terminal by the analyzer
(`in ["ACCEPT", "DROP", "REJECT"]`). -/
def isTerminalTarget (t : String) : Bool :=
  t == "ACCEPT" || t == "DROP" || t == "REJECT"

/-- Python truthiness of an `Optional[str]` field (`None` and `""` falsy). -/
def optTruthy (o : Option String) : Bool :=
  match o with
  | none => false
  | some s => !s.data.isEmpty

/-- `"|".join(parts)` (kernel-evaluable replacement for `String.intercalate`). -/
def joinPipe : List String → String
  | [] => ""
  | [s] => s
  | s :: rest => s ++ "|" ++ joinPipe rest

/-- `_create_rule_signature`. -/
def create_rule_signature (r : FirewallRule) : String :=
  joinPipe
    [r.chain, r.target, r.protocol.getD "", r.source_ip.getD "",
     r.destination_ip.getD "", r.source_port.getD "", r.destination_port.getD "",
     r.interface_in.getD "", r.interface_out.getD "", r.state.getD ""]

/-- The issue built in `_check_redundant_rules`. -/
def redundantIssue (original r : FirewallRule) : RuleIssue :=
  { issue_type := .redundant
    severity := .medium
    description := "Redundant rule found: duplicate of rule at line "
      ++ toString original.line_number
    affected_rules := [original, r]
    recommendation :=
      "Remove the duplicate rule to improve performance and reduce complexity" }

/-- Loop of `_check_redundant_rules`: `seen` is the `seen_rules` dict
(signature ↦ first rule with that signature, insertion ordered). -/
def check_redundant_aux (seen : List (String × FirewallRule)) :
    List FirewallRule → List RuleIssue
  | [] => []
  | r :: rest =>
    let sig := create_rule_signature r
    match seen.lookup sig with
    | some original => redundantIssue original r :: check_redundant_aux seen rest
    | none => check_redundant_aux (seen ++ [(sig, r)]) rest

/-- `_check_redundant_rules` (issues appended to the result, in rule order). -/
def check_redundant_rules (rules : List FirewallRule) : List RuleIssue :=
  check_redundant_aux [] rules

/-- One criterion of `_rules_match_same_traffic`: both values concrete and
different fails unless the criterion is an IP field whose ranges overlap. -/
def fieldSameTraffic (isIp : Bool) (v1 v2 : Option String) : Bool :=
  match v1, v2 with
  | none, _ => true
  | _, none => true
  | some a, some b =>
    if a == b then true
    else if isIp then ip_ranges_overlap a b
    else false

/-- `_rules_match_same_traffic`. -/
def rules_match_same_traffic (r1 r2 : FirewallRule) : Bool :=
  fieldSameTraffic false r1.protocol r2.protocol &&
  fieldSameTraffic true r1.source_ip r2.source_ip &&
  fieldSameTraffic true r1.destination_ip r2.destination_ip &&
  fieldSameTraffic false r1.source_port r2.source_port &&
  fieldSameTraffic false r1.destination_port r2.destination_port &&
  fieldSameTraffic false r1.interface_in r2.interface_in &&
  fieldSameTraffic false r1.interface_out r2.interface_out

/-- `_rules_conflict`. -/
def rules_conflict (r1 r2 : FirewallRule) : Bool :=
  if r1.target == r2.target then false
  else
    rules_match_same_traffic r1 r2 &&
    r1.target != r2.target &&
    isTerminalTarget r1.target &&
    isTerminalTarget r2.target

/-- The issue built in `_check_conflicting_rules`. -/
def conflictIssue (r1 r2 : FirewallRule) : RuleIssue :=
  { issue_type := .conflicting
    severity :=
      if r1.target == "DROP" || r2.target == "DROP" then .high else .medium
    description := "Conflicting rules: " ++ r1.target ++ " vs " ++ r2.target
      ++ " for same traffic"
    affected_rules := [r1, r2]
    recommendation := "Review rule order and consolidate conflicting rules" }

/-- `_check_conflicting_rules`: every pair `i < j`, in scan order. -/
def check_conflicting_rules : List FirewallRule → List RuleIssue
  | [] => []
  | r :: rest =>
    rest.filterMap
      (fun r2 => if rules_conflict r r2 then some (conflictIssue r r2) else none)
      ++ check_conflicting_rules rest

/-- `_is_more_general`: strictly fewer populated fields among the five
matching attributes. -/
def is_more_general (r1 r2 : FirewallRule) : Bool :=
  let count := fun (r : FirewallRule) =>
    [r.protocol, r.source_ip, r.destination_ip, r.source_port,
     r.destination_port].countP Option.isSome
  count r1 < count r2

/-- The issue built in `_check_rule_ordering`. -/
def orderingIssue (earlier r : FirewallRule) : RuleIssue :=
  { issue_type := .inefficient_order
    severity := .medium
    description := "Specific rule at line " ++ toString r.line_number
      ++ " comes after general rule at line " ++ toString earlier.line_number
    affected_rules := [earlier, r]
    recommendation :=
      "Move more specific rules before general ones for better performance" }

/-- Loop of `_check_rule_ordering` (`earlier` holds the rules before the
current one, in order). -/
def check_ordering_aux (earlier : List FirewallRule) :
    List FirewallRule → List RuleIssue
  | [] => []
  | r :: rest =>
    earlier.filterMap
      (fun e =>
        if is_more_general e r && r.target != e.target then
          some (orderingIssue e r)
        else none)
      ++ check_ordering_aux (earlier ++ [r]) rest

/-- `_check_rule_ordering`. -/
def check_rule_ordering (rules : List FirewallRule) : List RuleIssue :=
  check_ordering_aux [] rules

/-- `_rule_covers_completely`: each of the seven criteria must pass its
containment check. -/
def rule_covers_completely (general_rule specific_rule : FirewallRule) : Bool :=
  (general_rule.protocol == none || general_rule.protocol == specific_rule.protocol) &&
  ip_contains general_rule.source_ip specific_rule.source_ip &&
  ip_contains general_rule.destination_ip specific_rule.destination_ip &&
  port_contains general_rule.source_port specific_rule.source_port &&
  port_contains general_rule.destination_port specific_rule.destination_port &&
  (general_rule.interface_in == none ||
    general_rule.interface_in == specific_rule.interface_in) &&
  (general_rule.interface_out == none ||
    general_rule.interface_out == specific_rule.interface_out)

/-- The issue built in `_check_unreachable_rules`. -/
def unreachableIssue (earlier r : FirewallRule) : RuleIssue :=
  { issue_type := .unreachable
    severity := .medium
    description := "Rule at line " ++ toString r.line_number
      ++ " is unreachable due to rule at line " ++ toString earlier.line_number
    affected_rules := [earlier, r]
    recommendation := "Remove unreachable rule or reorder rules" }

/-- Loop of `_check_unreachable_rules`: for each rule, scan the earlier rules
in order and stop at the first covering terminal one (`break`). -/
def check_unreachable_aux (earlier : List FirewallRule) :
    List FirewallRule → List RuleIssue
  | [] => []
  | r :: rest =>
    (match earlier.find?
        (fun e => rule_covers_completely e r && isTerminalTarget e.target) with
     | some e => [unreachableIssue e r]
     | none => [])
      ++ check_unreachable_aux (earlier ++ [r]) rest

/-- `_check_unreachable_rules`. -/
def check_unreachable_rules (rules : List FirewallRule) : List RuleIssue :=
  check_unreachable_aux [] rules

/-- Character-list substring search (structural, kernel-evaluable). -/
def subListAt (needle : List Char) : List Char → Bool
  | [] => needle.isEmpty
  | x :: xs => needle.isPrefixOf (x :: xs) || subListAt needle xs

/-- Substring test, model of Python `"LOG" in rule.raw_rule`. -/
def containsSubstr (hay needle : String) : Bool :=
  subListAt needle.data hay.data

/-- `_check_security_issues`: admin-port exposure and missing logging. -/
def check_security_issues (rules : List FirewallRule) : List RuleIssue :=
  rules.flatMap fun r =>
    (if r.target == "ACCEPT" &&
        (r.source_ip == none || r.source_ip == some "0.0.0.0/0" ||
          r.source_ip == some "any") &&
        (r.destination_port == some "22" || r.destination_port == some "3389" ||
          r.destination_port == some "23") then
      [{ issue_type := .security_risk
         severity := .high
         description := "Administrative port " ++ (r.destination_port.getD "")
           ++ " open to all sources"
         affected_rules := [r]
         recommendation :=
           "Restrict access to administrative ports to specific source IPs" }]
    else []) ++
    (if r.target == "DROP" && !containsSubstr r.raw_rule "LOG" then
      [{ issue_type := .missing_log
         severity := .low
         description := "DROP rule without logging"
         affected_rules := [r]
         recommendation :=
           "Consider adding logging to DROP rules for security monitoring" }]
    else [])

/-- `_check_permissive_rules` (Python truthiness on the four fields). -/
def check_permissive_rules (rules : List FirewallRule) : List RuleIssue :=
  rules.flatMap fun r =>
    if r.target == "ACCEPT" && !optTruthy r.source_ip &&
        !optTruthy r.destination_ip && !optTruthy r.destination_port &&
        !optTruthy r.protocol then
      [{ issue_type := .overly_permissive
         severity := .high
         description := "Rule accepts all traffic without restrictions"
         affected_rules := [r]
         recommendation :=
           "Add specific restrictions to limit the scope of this rule" }]
    else []

/-! ### Statistics and scores -/

/-- `_calculate_statistics`. -/
def calculate_statistics (config : FirewallConfig) : List (String × Nat) :=
  let allChains := config.tables.flatMap Prod.snd
  let allRules := allChains.flatMap Prod.snd
  [("total_rules", allRules.length),
   ("total_chains", allChains.length),
   ("total_tables", config.tables.length),
   ("accept_rules", allRules.countP (fun r => r.target == "ACCEPT")),
   ("drop_rules", allRules.countP (fun r => r.target == "DROP")),
   ("reject_rules", allRules.countP (fun r => r.target == "REJECT")),
   ("custom_chains", allChains.countP (fun c =>
      !(["INPUT", "OUTPUT", "FORWARD", "PREROUTING", "POSTROUTING"].contains c.1)))]

/-- The per-issue efficiency penalty of `_calculate_efficiency_score`. -/
def efficiencyPenalty (i : RuleIssue) : Int :=
  match i.issue_type with
  | .redundant => 5
  | .inefficient_order => 3
  | .unreachable => 4
  | _ => 0

/-- `_calculate_efficiency_score`. -/
def calculate_efficiency_score (issues : List RuleIssue) : Int :=
  let base := issues.foldl (fun acc i => acc - efficiencyPenalty i) 100
  max 0 (min 100 base)

/-- The per-issue security penalty of `_calculate_security_score`. -/
def securityPenalty (i : RuleIssue) : Int :=
  match i.issue_type with
  | .security_risk =>
    match i.severity with
    | .critical => 20
    | .high => 15
    | .medium => 10
    | .low => 0
  | .overly_permissive => 8
  | _ => 0

/-- `_calculate_security_score`. -/
def calculate_security_score (issues : List RuleIssue) : Int :=
  let base := issues.foldl (fun acc i => acc - securityPenalty i) 100
  max 0 (min 100 base)

/-- Per-chain battery of checks run by `analyze_configuration` (skipped for
an empty rule list). -/
def chainIssues (rules : List FirewallRule) : List RuleIssue :=
  if rules.isEmpty then []
  else
    check_redundant_rules rules ++ check_conflicting_rules rules ++
    check_rule_ordering rules ++ check_unreachable_rules rules ++
    check_security_issues rules ++ check_permissive_rules rules

/-- `FirewallAnalyzer.analyze_configuration`. -/
def analyze_configuration (config : FirewallConfig) : AnalysisResult :=
  let issues := config.tables.flatMap fun tc =>
    tc.2.flatMap fun cr => chainIssues cr.2
  { issues := issues
    statistics := calculate_statistics config
    rule_efficiency_score := calculate_efficiency_score issues
    security_score := calculate_security_score issues }

/-- Model of calling `analyze_configuration` with a possibly-null `config`:
Python attribute access `config.tables` on `None` raises `AttributeError`,
modelled as `Except.error`. -/
def analyze_configuration_checked :
    Option FirewallConfig → Except String AnalysisResult
  | none => .error "AttributeError: NoneType object has no attribute tables"
  | some config => .ok (analyze_configuration config)

/-! ### Recommender (`optimizer/recommender.py`) -/

/-- `RecommendationType` enum. -/
inductive RecommendationType where
  | delete_rule
  | reorder_rules
  | merge_rules
  | split_rule
  | modify_rule
  | add_rule
  | add_logging
  | restrict_source
  deriving Repr, DecidableEq

/-- `RecommendationPriority` enum (with its integer `value`). -/
inductive RecommendationPriority where
  | low
  | medium
  | high
  | critical
  deriving Repr, DecidableEq

/-- `.value` of a `RecommendationPriority`. -/
def RecommendationPriority.value : RecommendationPriority → Nat
  | .low => 1
  | .medium => 2
  | .high => 3
  | .critical => 4

/-- `Recommendation` dataclass. -/
structure Recommendation where
  rec_type : RecommendationType
  priority : RecommendationPriority
  title : String
  description : String
  affected_rules : List FirewallRule
  new_rules : List FirewallRule := []
  implementation_notes : String := ""
  risk_level : String := "low"
  estimated_impact : String := ""
  deriving Repr, DecidableEq

/-- The default-drop rule constructed in `_check_default_policies`
(`FirewallRule(table=..., chain=..., target="DROP", raw_rule=...)`, all other
fields left at their dataclass defaults). -/
def defaultDropRule (tname cname : String) : FirewallRule :=
  { table := tname
    chain := cname
    target := "DROP"
    raw_rule := "-A " ++ cname ++ " -j DROP" }

/-- The recommendation built in `_check_default_policies`. -/
def defaultDropRec (tname cname : String) : Recommendation :=
  { rec_type := .add_rule
    priority := .medium
    title := "Add explicit default DROP policy to " ++ cname
    description :=
      "Add an explicit default DROP rule at the end of the chain for better security."
    affected_rules := []
    new_rules := [defaultDropRule tname cname]
    risk_level := "medium"
    estimated_impact := "Improved security posture with explicit default policy"
    implementation_notes := "Add rule: -A " ++ cname ++ " -j DROP" }

/-- The last-rule test of `_check_default_policies`: recommend unless the
chain already ends in a rule with target `DROP` and no (truthy) protocol,
source or destination.  Ports, interfaces and state are not consulted. -/
def lastRuleNeedsDefaultDrop (last : FirewallRule) : Bool :=
  last.target != "DROP" || optTruthy last.protocol ||
  optTruthy last.source_ip || optTruthy last.destination_ip

/-- Per-chain step of `_check_default_policies` for one of the three standard
chain names. -/
def defaultPolicyRecsForChain (tname : String)
    (chains : List (String × List FirewallRule)) (cname : String) :
    List Recommendation :=
  match chains.lookup cname with
  | some rules =>
    match rules.getLast? with
    | some last =>
      if lastRuleNeedsDefaultDrop last then [defaultDropRec tname cname] else []
    | none => []
  | none => []

/-- `_check_default_policies`: only the `filter` table is examined, for the
three built-in chains in the fixed order INPUT, FORWARD, OUTPUT. -/
def check_default_policies (config : FirewallConfig) : List Recommendation :=
  config.tables.flatMap fun tc =>
    if tc.1 == "filter" then
      ["INPUT", "FORWARD", "OUTPUT"].flatMap
        (defaultPolicyRecsForChain tc.1 tc.2)
    else []

/-! ### Plan application (`generate_optimized_config`) -/

/-- `list.remove(x)`: drop the first occurrence. -/
def removeFirst (rules : List FirewallRule) (r : FirewallRule) :
    List FirewallRule :=
  match rules with
  | [] => []
  | x :: xs => if x == r then xs else x :: removeFirst xs r

/-- Inner loop of `_apply_delete_recommendation` over one table's chains:
remove `r` from the first chain that contains it, then `break` (the rest of
this table's chains are left untouched). -/
def deleteInChains (chains : List (String × List FirewallRule))
    (r : FirewallRule) : List (String × List FirewallRule) :=
  match chains with
  | [] => []
  | (c, rs) :: rest =>
    if rs.contains r then (c, removeFirst rs r) :: rest
    else (c, rs) :: deleteInChains rest r

/-- One `rule` iteration of `_apply_delete_recommendation`: every table is
visited (the `break` only leaves the chain loop). -/
def apply_delete_rule (tables : List (String × List (String × List FirewallRule)))
    (r : FirewallRule) : List (String × List (String × List FirewallRule)) :=
  tables.map fun tc => (tc.1, deleteInChains tc.2 r)

/-- `_apply_delete_recommendation`. -/
def apply_delete_recommendation (config : FirewallConfig)
    (rec : Recommendation) : FirewallConfig :=
  { config with tables := rec.affected_rules.foldl apply_delete_rule config.tables }

/-- Append a rule to chain `c` of an ordered chain dict, creating the entry
(at the end, as dict insertion does) when absent. -/
def addToChain (chains : List (String × List FirewallRule)) (c : String)
    (r : FirewallRule) : List (String × List FirewallRule) :=
  match chains with
  | [] => [(c, [r])]
  | (c', rs) :: rest =>
    if c' == c then (c', rs ++ [r]) :: rest
    else (c', rs) :: addToChain rest c r

/-- Insert one new rule per `_apply_add_recommendation`: the table entry is
created at the end of the dict when absent. -/
def addToTables (tables : List (String × List (String × List FirewallRule)))
    (r : FirewallRule) : List (String × List (String × List FirewallRule)) :=
  match tables with
  | [] => [(r.table, [(r.chain, [r])])]
  | (t, chains) :: rest =>
    if t == r.table then (t, addToChain chains r.chain r) :: rest
    else (t, chains) :: addToTables rest r

/-- `_apply_add_recommendation`. -/
def apply_add_recommendation (config : FirewallConfig)
    (rec : Recommendation) : FirewallConfig :=
  { config with tables := rec.new_rules.foldl addToTables config.tables }

/-- Stable insertion for a descending-by-priority sort: an element is placed
before the first existing element whose priority value does not exceed its
own, so equal priorities keep their original relative order. -/
def insertDesc (r : Recommendation) :
    List Recommendation → List Recommendation
  | [] => [r]
  | x :: xs =>
    if x.priority.value ≤ r.priority.value then r :: x :: xs
    else x :: insertDesc r xs

/-- Model of `sorted(recs, key=lambda x: x.priority.value, reverse=True)`:
a stable descending sort (stable sorts are extensionally unique, so this
insertion sort computes exactly what CPython's stable `sorted` does). -/
def sortByPriorityDesc (recs : List Recommendation) : List Recommendation :=
  recs.foldr insertDesc []

/-- One iteration of the recommendation loop of `generate_optimized_config`:
delete and add recommendations are applied, all other types ignored. -/
def applyRecStep (config : FirewallConfig) (rec : Recommendation) :
    FirewallConfig :=
  match rec.rec_type with
  | .delete_rule => apply_delete_recommendation config rec
  | .add_rule => apply_add_recommendation config rec
  | _ => config

/-- `FirewallRecommender.generate_optimized_config`: deep-copy the original
(value semantics here), then apply delete and add recommendations in
descending priority order; other recommendation types are ignored. -/
def generate_optimized_config (original_config : FirewallConfig)
    (recommendations : List Recommendation) : FirewallConfig :=
  (sortByPriorityDesc recommendations).foldl applyRecStep original_config

/-- All rule values of one table's chain dict, in traversal order. -/
def allRulesOfChains (chains : List (String × List FirewallRule)) :
    List FirewallRule :=
  chains.flatMap Prod.snd

/-- All rule values occurring anywhere in a table dict, in traversal order. -/
def allRulesOfTables
    (tables : List (String × List (String × List FirewallRule))) :
    List FirewallRule :=
  tables.flatMap fun tc => allRulesOfChains tc.2

/-! ### Concrete scenario inputs -/

/-- `-A INPUT -p tcp --dport 22 -j ACCEPT` as the parser produces it at
source line 1. -/
def ruleSsh1 : FirewallRule :=
  { chain := "INPUT"
    target := "ACCEPT"
    protocol := some "tcp"
    destination_port := some "22"
    line_number := 1
    raw_rule := "-A INPUT -p tcp --dport 22 -j ACCEPT"
    parameters := [("p", .str "tcp"), ("dport", .str "22"), ("j", .str "ACCEPT")] }

/-- The identical rule at source line 2. -/
def ruleSsh2 : FirewallRule :=
  { ruleSsh1 with line_number := 2 }

/-- `-A INPUT -j DROP` at source line 3. -/
def ruleDrop3 : FirewallRule :=
  { chain := "INPUT"
    target := "DROP"
    line_number := 3
    raw_rule := "-A INPUT -j DROP"
    parameters := [("j", .str "DROP")] }

/-- The three-rule policy of the redundancy scenario. -/
def configScenario1 : FirewallConfig :=
  { tables := [("filter", [("INPUT", [ruleSsh1, ruleSsh2, ruleDrop3])])] }

/-- `-A INPUT -j DROP` at source line 1. -/
def ruleDropAll1 : FirewallRule :=
  { chain := "INPUT"
    target := "DROP"
    line_number := 1
    raw_rule := "-A INPUT -j DROP"
    parameters := [("j", .str "DROP")] }

/-- A second `-A INPUT -j DROP` at source line 2. -/
def ruleDropAll2 : FirewallRule :=
  { ruleDropAll1 with line_number := 2 }

/-- `-A INPUT -p tcp --dport 80 -j ACCEPT` at source line 3. -/
def ruleHttp3 : FirewallRule :=
  { chain := "INPUT"
    target := "ACCEPT"
    protocol := some "tcp"
    destination_port := some "80"
    line_number := 3
    raw_rule := "-A INPUT -p tcp --dport 80 -j ACCEPT"
    parameters := [("p", .str "tcp"), ("dport", .str "80"), ("j", .str "ACCEPT")] }

/-- An interface-restricted drop: `-A INPUT -i eth0 -j DROP`. -/
def ruleIfDrop : FirewallRule :=
  { chain := "INPUT"
    target := "DROP"
    interface_in := some "eth0"
    line_number := 1
    raw_rule := "-A INPUT -i eth0 -j DROP"
    parameters := [("i", .str "eth0"), ("j", .str "DROP")] }

/-- A policy whose filter/INPUT chain ends in the interface-restricted drop. -/
def configIfDrop : FirewallConfig :=
  { tables := [("filter", [("INPUT", [ruleIfDrop])])] }

/-- `-A INPUT -p tcp --dport 443 -j ACCEPT` at source line 1. -/
def ruleHttps : FirewallRule :=
  { chain := "INPUT"
    target := "ACCEPT"
    protocol := some "tcp"
    destination_port := some "443"
    line_number := 1
    raw_rule := "-A INPUT -p tcp --dport 443 -j ACCEPT"
    parameters := [("p", .str "tcp"), ("dport", .str "443"), ("j", .str "ACCEPT")] }

/-- A policy whose filter/INPUT chain ends in the https accept rule. -/
def configHttps : FirewallConfig :=
  { tables := [("filter", [("INPUT", [ruleHttps])])] }

/-- A policy whose single chain holds the same rule value twice. -/
def configDupRule : FirewallConfig :=
  { tables := [("filter", [("INPUT", [ruleSsh1, ruleSsh1])])] }

/-- A delete-rule recommendation naming `ruleSsh1`. -/
def delRecSsh : Recommendation :=
  { rec_type := .delete_rule
    priority := .medium
    title := "Remove redundant rule at line 2"
    description := "This rule is identical to the rule at line 1 and can be safely removed."
    affected_rules := [ruleSsh1]
    risk_level := "low"
    estimated_impact := "Improved performance, reduced complexity"
    implementation_notes := "Delete rule: -A INPUT -p tcp --dport 22 -j ACCEPT" }

/-- `Modelled from the spec:` an "unconditional drop" — the spec phrase used
by the default-policy claim, missing from the code as such: a rule whose
target is drop and which carries no match restriction at all (no protocol,
addresses, ports, interfaces or state). -/
def isUnconditionalDrop (r : FirewallRule) : Bool :=
  r.target == "DROP" && r.protocol == none && r.source_ip == none &&
  r.destination_ip == none && r.source_port == none &&
  r.destination_port == none && r.interface_in == none &&
  r.interface_out == none && r.state == none

/-! ### Theorems -/

/-- Claim C1 (counterexample): on the policy with the two identical
`--dport 22` accepts at lines 1 and 2 and `-A INPUT -j DROP` at line 3, the
code reports an unreachable issue for the line-2 rule (shadowed by its
identical line-1 copy) and the efficiency score is 91, not 95 as claimed. -/
theorem scenario1_score_not_95 :
    (analyze_configuration configScenario1).issues.countP
        (fun i => i.issue_type == .unreachable &&
          i.affected_rules == [ruleSsh1, ruleSsh2]) = 1 ∧
    (analyze_configuration configScenario1).rule_efficiency_score = 91 ∧
    ¬ (analyze_configuration configScenario1).rule_efficiency_score = 95 := by
  decide

/-- Claim C1 (amended): the scenario yields exactly one redundant issue with
evidence (line-1 rule, line-2 rule); but also exactly one unreachable issue,
for the line-2 rule with evidence (line-1 rule, line-2 rule), since the
identical line-1 rule completely covers it; no unreachable issue touches the
line-3 rule; the efficiency score is 100 − 5 − 4 = 91. -/
theorem scenario1_analysis :
    (analyze_configuration configScenario1).issues.countP
        (fun i => i.issue_type == .redundant) = 1 ∧
    redundantIssue ruleSsh1 ruleSsh2 ∈ (analyze_configuration configScenario1).issues ∧
    (analyze_configuration configScenario1).issues.countP
        (fun i => i.issue_type == .unreachable) = 1 ∧
    unreachableIssue ruleSsh1 ruleSsh2 ∈ (analyze_configuration configScenario1).issues ∧
    (∀ i ∈ (analyze_configuration configScenario1).issues,
      i.issue_type = .unreachable → i.affected_rules = [ruleSsh1, ruleSsh2]) ∧
    (analyze_configuration configScenario1).rule_efficiency_score = 91 := by
  decide

/-- Splitting the scanned rule list splits the unreachable check's output,
with the accumulated earlier-rules argument advanced accordingly. -/
theorem check_unreachable_aux_append (xs : List FirewallRule) :
    ∀ (earlier ys : List FirewallRule),
      check_unreachable_aux earlier (xs ++ ys) =
        check_unreachable_aux earlier xs ++ check_unreachable_aux (earlier ++ xs) ys := by
  induction xs with
  | nil => intro earlier ys; simp [check_unreachable_aux]
  | cons x xs ih =>
    intro earlier ys
    simp only [List.cons_append, check_unreachable_aux]
    rw [show List.append xs ys = xs ++ ys from rfl, ih (earlier ++ [x]) ys]
    simp [List.append_assoc]

/-- Claim C2 (counterexample): with two identical unrestricted DROP rules at
lines 1 and 2 followed by an http accept at line 3, the line-2 rule covers
the line-3 rule completely and is terminal — it is the nearest covering
predecessor — yet the reported issue for line 3 references the line-1 rule,
the earliest covering predecessor. -/
theorem unreachable_nearest_counterexample :
    rule_covers_completely ruleDropAll2 ruleHttp3 = true ∧
    isTerminalTarget ruleDropAll2.target = true ∧
    check_unreachable_rules [ruleDropAll1, ruleDropAll2, ruleHttp3] =
      [unreachableIssue ruleDropAll1 ruleDropAll2,
       unreachableIssue ruleDropAll1 ruleHttp3] := by
  decide

/-- Claim C2 (amended): for every rule R, the unreachable check emits at most
one issue for R's position — exactly the singleton produced by `List.find?`
over the rules before R, i.e. the EARLIEST (first in chain order) covering
terminal predecessor, not the nearest — with evidence ordered (earlier rule,
R) and severity medium. -/
theorem check_unreachable_reports_first_covering
    (pre post : List FirewallRule) (r : FirewallRule) :
    check_unreachable_rules (pre ++ r :: post) =
      check_unreachable_rules pre ++
        (match pre.find?
            (fun e => rule_covers_completely e r && isTerminalTarget e.target) with
         | some e => [unreachableIssue e r]
         | none => []) ++
        check_unreachable_aux (pre ++ [r]) post ∧
    (∀ e x, (unreachableIssue e x).severity = IssueSeverity.medium ∧
      (unreachableIssue e x).affected_rules = [e, x]) := by
  constructor
  · show check_unreachable_aux [] (pre ++ r :: post) = _
    rw [check_unreachable_aux_append pre [] (r :: post)]
    simp only [List.nil_append, check_unreachable_aux, check_unreachable_rules,
      List.append_assoc]
  · intro e x
    exact ⟨rfl, rfl⟩

/-- Claim C4 (counterexample): passing a null policy to the analyzer raises
(`config.tables` on `None` is an `AttributeError`), it does not return an
empty result. -/
theorem analyze_null_config_raises :
    analyze_configuration_checked none =
      Except.error "AttributeError: NoneType object has no attribute tables" := rfl

/-- Claim C4 (amended): an empty policy — no tables, or tables whose chains
all carry empty rule lists — yields an issue-free result with both scores at
100 and no error; a null policy, by contrast, raises. -/
theorem analyze_empty_policy (config : FirewallConfig)
    (h : ∀ tc ∈ config.tables, ∀ cr ∈ tc.2, cr.2 = ([] : List FirewallRule)) :
    analyze_configuration_checked (some config) =
      Except.ok (analyze_configuration config) ∧
    (analyze_configuration config).issues = [] ∧
    (analyze_configuration config).rule_efficiency_score = 100 ∧
    (analyze_configuration config).security_score = 100 := by
  have hempty :
      (config.tables.flatMap fun tc => tc.2.flatMap fun cr => chainIssues cr.2) = [] := by
    rw [List.flatMap_eq_nil_iff]
    intro tc htc
    rw [List.flatMap_eq_nil_iff]
    intro cr hcr
    rw [h tc htc cr hcr]
    rfl
  refine ⟨rfl, ?_, ?_, ?_⟩ <;>
    simp only [analyze_configuration, hempty] <;> rfl

/-- Witness for the amended C4 theorem at a concrete empty policy. -/
theorem analyze_empty_policy_witness :
    (analyze_configuration { tables := [("filter", [("INPUT", [])])] }).issues = [] ∧
    (analyze_configuration
      { tables := [("filter", [("INPUT", [])])] }).rule_efficiency_score = 100 ∧
    (analyze_configuration
      { tables := [("filter", [("INPUT", [])])] }).security_score = 100 := by
  have h := analyze_empty_policy { tables := [("filter", [("INPUT", [])])] }
    (by decide)
  exact ⟨h.2.1, h.2.2.1, h.2.2.2⟩

/-- Claim C6: address-overlap never propagates a parse error and fails open
(true) whenever either side fails to parse; address and port containment fall
back to exact string equality whenever either side fails to parse.  (All
three functions are total by construction in this embedding, mirroring that
the Python functions catch `ValueError` at their own boundary.) -/
theorem range_algebra_fail_open (a b p q : String)
    (hab : ip_network a = none ∨ ip_network b = none)
    (hpq : parsePortRange p = none ∨ parsePortRange q = none) :
    ip_ranges_overlap a b = true ∧
    ip_contains (some a) (some b) = (a == b) ∧
    port_contains (some p) (some q) = (p == q) := by
  refine ⟨?_, ?_, ?_⟩
  · cases hA : ip_network a <;> cases hB : ip_network b <;>
      simp only [ip_ranges_overlap, hA, hB] <;> simp_all
  · cases hA : ip_network a <;> cases hB : ip_network b <;>
      simp only [ip_contains, hA, hB] <;> simp_all
  · cases hP : parsePortRange p <;> cases hQ : parsePortRange q <;>
      simp only [port_contains, hP, hQ] <;> simp_all

/-- Witness for the C6 theorem at concrete unparsable specifications,
including bare decimal tokens, which `ipaddress.ip_network` rejects when
given as strings. -/
theorem range_algebra_fail_open_witness :
    ip_ranges_overlap "garbage" "10.0.0.0/8" = true ∧
    ip_ranges_overlap "123" "456" = true ∧
    ip_contains (some "garbage") (some "garbage") = true ∧
    port_contains (some "1:2:3") (some "1:2:3") = true := by
  have h := range_algebra_fail_open "garbage" "10.0.0.0/8" "1:2:3" "1:2:3"
    (Or.inl (by decide)) (Or.inl (by decide))
  have h2 := range_algebra_fail_open "garbage" "garbage" "1:2:3" "1:2:3"
    (Or.inl (by decide)) (Or.inl (by decide))
  have h3 := range_algebra_fail_open "123" "456" "1:2:3" "1:2:3"
    (Or.inl (by decide)) (Or.inl (by decide))
  exact ⟨h.1, h3.1, h2.2.1.trans (by decide), h.2.2.trans (by decide)⟩

/-- Claim C9 (counterexample): a filter/INPUT chain ending in the
interface-restricted drop `-A INPUT -i eth0 -j DROP` — not an unconditional
drop — receives no add-rule recommendation, because the code only inspects
target, protocol, source and destination when deciding whether the last rule
is a default drop. -/
theorem default_drop_counterexample :
    isUnconditionalDrop ruleIfDrop = false ∧
    check_default_policies configIfDrop = [] := by
  decide

/-- Claim C9 (amended): for a filter table holding one standard chain, one
add-rule recommendation proposing `-A <chain> -j DROP` with priority medium
is produced exactly when the chain's last rule fails the code's default-drop
test (target DROP with no protocol, source or destination); drops restricted
only by port, interface or state are treated as default drops and produce no
recommendation. -/
theorem default_drop_added_unless_plain_drop (cname : String)
    (rules : List FirewallRule) (last : FirewallRule)
    (hc : cname = "INPUT" ∨ cname = "FORWARD" ∨ cname = "OUTPUT")
    (hlast : rules.getLast? = some last) :
    check_default_policies { tables := [("filter", [(cname, rules)])] } =
      if lastRuleNeedsDefaultDrop last then [defaultDropRec "filter" cname]
      else [] := by
  rcases hc with h | h | h <;> subst h <;>
    simp [check_default_policies, defaultPolicyRecsForChain, List.lookup, hlast]

/-- Witness for the amended C9 theorem: the https-accept chain of the spec
scenario gets exactly the default-drop recommendation. -/
theorem default_drop_added_witness :
    check_default_policies configHttps = [defaultDropRec "filter" "INPUT"] ∧
    (defaultDropRec "filter" "INPUT").rec_type = RecommendationType.add_rule ∧
    (defaultDropRec "filter" "INPUT").priority = RecommendationPriority.medium ∧
    (defaultDropRec "filter" "INPUT").new_rules.map (fun r => r.raw_rule) =
      ["-A INPUT -j DROP"] := by
  have h := default_drop_added_unless_plain_drop "INPUT" [ruleHttps] ruleHttps
    (Or.inl rfl) (by decide)
  exact ⟨h.trans (by decide), rfl, rfl, rfl⟩

/-- Every issue produced by the unreachable check is built from an evidence
pair (E, R) where E completely covers R and E's target is terminal. -/
theorem mem_check_unreachable_aux (iss : RuleIssue) :
    ∀ (rest earlier : List FirewallRule), iss ∈ check_unreachable_aux earlier rest →
      ∃ e x, iss = unreachableIssue e x ∧ rule_covers_completely e x = true ∧
        isTerminalTarget e.target = true := by
  intro rest
  induction rest with
  | nil => intro earlier h; simp [check_unreachable_aux] at h
  | cons r rest ih =>
    intro earlier h
    rw [check_unreachable_aux, List.mem_append] at h
    rcases h with h | h
    · cases hf : List.find?
          (fun e => rule_covers_completely e r && isTerminalTarget e.target) earlier with
      | none => rw [hf] at h; simp at h
      | some e =>
        rw [hf] at h
        simp only [List.mem_singleton] at h
        subst h
        have hp := List.find?_some hf
        rw [Bool.and_eq_true] at hp
        exact ⟨e, r, rfl, hp.1, hp.2⟩
    · exact ih _ h

/-- Claim C10: a concrete port or address specification never contains an
absent one, so an earlier rule that restricts such a field never completely
covers a later rule leaving it absent, and the unreachable check never emits
an issue whose evidence is such a pair. -/
theorem restricted_never_covers_absent (g : String) (e r : FirewallRule)
    (rules : List FirewallRule)
    (h : (e.source_port.isSome = true ∧ r.source_port = none) ∨
         (e.destination_port.isSome = true ∧ r.destination_port = none) ∨
         (e.source_ip.isSome = true ∧ r.source_ip = none) ∨
         (e.destination_ip.isSome = true ∧ r.destination_ip = none)) :
    port_contains (some g) none = false ∧
    ip_contains (some g) none = false ∧
    rule_covers_completely e r = false ∧
    ∀ iss ∈ check_unreachable_rules rules, iss.affected_rules ≠ [e, r] := by
  have hcov : rule_covers_completely e r = false := by
    rcases h with ⟨h1, h2⟩ | ⟨h1, h2⟩ | ⟨h1, h2⟩ | ⟨h1, h2⟩ <;>
      · obtain ⟨v, hv⟩ := Option.isSome_iff_exists.mp h1
        simp [rule_covers_completely, hv, h2, port_contains, ip_contains]
  refine ⟨rfl, rfl, hcov, ?_⟩
  intro iss hiss
  obtain ⟨e', x', rfl, hcov', -⟩ := mem_check_unreachable_aux iss rules [] hiss
  intro hEq
  have hpair : e' = e ∧ x' = r := by
    have h2 : ([e', x'] : List FirewallRule) = [e, r] := hEq
    simpa using h2
  rcases hpair with ⟨rfl, rfl⟩
  rw [hcov] at hcov'
  exact Bool.false_ne_true hcov'

/-- Witness for the C10 theorem at a concrete pair: the dport-22 accept does
not cover the unrestricted drop. -/
theorem restricted_never_covers_absent_witness :
    port_contains (some "22") none = false ∧
    ip_contains (some "22") none = false ∧
    rule_covers_completely ruleSsh1 ruleDrop3 = false := by
  have h := restricted_never_covers_absent "22" ruleSsh1 ruleDrop3
    [ruleSsh1, ruleDrop3] (Or.inr (Or.inl ⟨rfl, rfl⟩))
  exact ⟨h.1, h.2.1, h.2.2.1⟩

/-! ### Conflicting-pair characterization (claim C3) -/

/-- Following the claim's words: a scalar matching field (protocol, port,
interface) "overlaps" another exactly when the two are equal, and is
compatible when absent on at least one side. -/
def overlapOrAbsentEq (v1 v2 : Option String) : Prop :=
  v1 = none ∨ v2 = none ∨ v1 = v2

/-- Following the claim's words: an address field is compatible when absent
on at least one side or when the two address ranges overlap. -/
def overlapOrAbsentAddr (v1 v2 : Option String) : Prop :=
  v1 = none ∨ v2 = none ∨
    ∃ a b, v1 = some a ∧ v2 = some b ∧ ip_ranges_overlap a b = true

/-- Following the claim's words: two rules conflict when their targets
differ, both targets are terminal (accept, drop, reject), and every matching
field either overlaps or is absent on at least one side. -/
def conflictingSpec (r1 r2 : FirewallRule) : Prop :=
  r1.target ≠ r2.target ∧
  (r1.target = "ACCEPT" ∨ r1.target = "DROP" ∨ r1.target = "REJECT") ∧
  (r2.target = "ACCEPT" ∨ r2.target = "DROP" ∨ r2.target = "REJECT") ∧
  overlapOrAbsentEq r1.protocol r2.protocol ∧
  overlapOrAbsentAddr r1.source_ip r2.source_ip ∧
  overlapOrAbsentAddr r1.destination_ip r2.destination_ip ∧
  overlapOrAbsentEq r1.source_port r2.source_port ∧
  overlapOrAbsentEq r1.destination_port r2.destination_port ∧
  overlapOrAbsentEq r1.interface_in r2.interface_in ∧
  overlapOrAbsentEq r1.interface_out r2.interface_out

/-- An address range always overlaps itself (parse failure also answers
true). -/
theorem ip_ranges_overlap_self (a : String) : ip_ranges_overlap a a = true := by
  unfold ip_ranges_overlap
  cases h : ip_network a with
  | none => rfl
  | some n =>
    show netOverlaps n n = true
    unfold netOverlaps IPv4Net.broadcast
    have h1 : 1 ≤ 2 ^ (32 - n.plen) := Nat.one_le_two_pow
    simp only [Bool.and_eq_true, decide_eq_true_eq]
    omega

/-- Scalar-field traffic compatibility coincides with
equality-or-absence. -/
theorem fieldSameTraffic_eq_iff (v1 v2 : Option String) :
    fieldSameTraffic false v1 v2 = true ↔ overlapOrAbsentEq v1 v2 := by
  cases v1 <;> cases v2 <;>
    simp [fieldSameTraffic, overlapOrAbsentEq]

/-- Address-field traffic compatibility coincides with
overlap-or-absence. -/
theorem fieldSameTraffic_addr_iff (v1 v2 : Option String) :
    fieldSameTraffic true v1 v2 = true ↔ overlapOrAbsentAddr v1 v2 := by
  cases v1 with
  | none => simp [fieldSameTraffic, overlapOrAbsentAddr]
  | some a =>
    cases v2 with
    | none => simp [fieldSameTraffic, overlapOrAbsentAddr]
    | some b =>
      by_cases hab : a = b
      · subst hab
        simp [fieldSameTraffic, overlapOrAbsentAddr, ip_ranges_overlap_self]
      · have hne : (a == b) = false := by simp [hab]
        simp [fieldSameTraffic, overlapOrAbsentAddr, hne, hab]

/-- The pairwise conflict test of the code is exactly the claim's
characterization. -/
theorem rules_conflict_iff (r1 r2 : FirewallRule) :
    rules_conflict r1 r2 = true ↔ conflictingSpec r1 r2 := by
  by_cases ht : r1.target = r2.target
  · simp [rules_conflict, ht, conflictingSpec]
  · have hne : (r1.target == r2.target) = false := by simp [ht]
    simp only [rules_conflict, hne, Bool.false_eq_true, if_false,
      rules_match_same_traffic, isTerminalTarget, Bool.and_eq_true, bne,
      Bool.not_eq_true', conflictingSpec, fieldSameTraffic_eq_iff,
      fieldSameTraffic_addr_iff, Bool.or_eq_true, beq_iff_eq]
    tauto

/-- A conflicting pair anywhere in the chain produces its issue. -/
theorem conflictIssue_mem (r1 r2 : FirewallRule) :
    ∀ (pre mid post : List FirewallRule), rules_conflict r1 r2 = true →
      conflictIssue r1 r2 ∈ check_conflicting_rules (pre ++ r1 :: mid ++ r2 :: post) := by
  intro pre
  induction pre with
  | nil =>
    intro mid post h
    rw [List.nil_append]
    show _ ∈ _ ++ check_conflicting_rules (mid ++ r2 :: post)
    apply List.mem_append_left
    apply List.mem_filterMap.mpr
    exact ⟨r2, by simp, by simp [h]⟩
  | cons x pre ih =>
    intro mid post h
    rw [List.cons_append]
    show _ ∈ _ ++ check_conflicting_rules (pre ++ r1 :: mid ++ r2 :: post)
    exact List.mem_append_right _ (ih mid post h)

/-- Every issue of the conflict check comes from a conflicting pair in chain
order. -/
theorem mem_check_conflicting_elim :
    ∀ (rules : List FirewallRule) (iss : RuleIssue),
      iss ∈ check_conflicting_rules rules →
      ∃ a b pre mid post, rules = pre ++ a :: mid ++ b :: post ∧
        rules_conflict a b = true ∧ iss = conflictIssue a b := by
  intro rules
  induction rules with
  | nil => intro iss h; simp [check_conflicting_rules] at h
  | cons r rest ih =>
    intro iss h
    have h : iss ∈
        rest.filterMap (fun r2 =>
          if rules_conflict r r2 then some (conflictIssue r r2) else none) ++
        check_conflicting_rules rest := h
    rw [List.mem_append] at h
    rcases h with h | h
    · obtain ⟨r2, hr2, hf⟩ := List.mem_filterMap.mp h
      by_cases hc : rules_conflict r r2 = true
      · rw [if_pos hc] at hf
        obtain ⟨mid, post, hsplit⟩ := List.append_of_mem hr2
        exact ⟨r, r2, [], mid, post, by rw [hsplit]; rfl, hc,
          (Option.some_inj.mp hf).symm⟩
      · rw [if_neg hc] at hf
        cases hf
    · obtain ⟨a, b, pre, mid, post, heq, hc, hiss⟩ := ih iss h
      exact ⟨a, b, r :: pre, mid, post, by rw [heq]; rfl, hc, hiss⟩

/-- Claim C3: a conflicting issue is flagged for a pair (i<j) iff the two
rules have different terminal targets and every matching field overlaps or
is absent on a side (scalar fields overlap by equality, address fields by
range overlap); the issue's severity is high iff a DROP target is involved,
else medium. -/
theorem conflicting_pair_characterization
    (rules pre mid post : List FirewallRule) (r1 r2 : FirewallRule) :
    (rules_conflict r1 r2 = true ↔ conflictingSpec r1 r2) ∧
    (rules = pre ++ r1 :: mid ++ r2 :: post → rules_conflict r1 r2 = true →
      conflictIssue r1 r2 ∈ check_conflicting_rules rules) ∧
    (∀ iss ∈ check_conflicting_rules rules, ∃ a b pre' mid' post',
      rules = pre' ++ a :: mid' ++ b :: post' ∧ rules_conflict a b = true ∧
      iss = conflictIssue a b) ∧
    ((conflictIssue r1 r2).severity =
      if r1.target = "DROP" ∨ r2.target = "DROP" then IssueSeverity.high
      else IssueSeverity.medium) := by
  refine ⟨rules_conflict_iff r1 r2, ?_, mem_check_conflicting_elim rules, ?_⟩
  · rintro rfl h
    exact conflictIssue_mem r1 r2 pre mid post h
  · by_cases h : r1.target = "DROP" ∨ r2.target = "DROP"
    · have : (r1.target == "DROP" || r2.target == "DROP") = true := by
        rcases h with h | h <;> simp [h]
      simp [conflictIssue, this, h]
    · have : (r1.target == "DROP" || r2.target == "DROP") = false := by
        push_neg at h
        simp [h.1, h.2]
      simp [conflictIssue, this, h]

/-- Witness for the C3 theorem at the concrete scenario pair. -/
theorem conflicting_pair_witness :
    conflictIssue ruleSsh1 ruleDrop3 ∈
      check_conflicting_rules [ruleSsh1, ruleDrop3] ∧
    (conflictIssue ruleSsh1 ruleDrop3).severity = IssueSeverity.high := by
  have h := conflicting_pair_characterization [ruleSsh1, ruleDrop3]
    [] [] [] ruleSsh1 ruleDrop3
  exact ⟨h.2.1 rfl (by decide), h.2.2.2.trans (by decide)⟩

/-! ### Score formulas (claim C5) -/

/-- A fold subtracting a per-element amount equals the start value minus the
sum of the amounts. -/
theorem foldl_sub_eq (p : RuleIssue → Int) :
    ∀ (l : List RuleIssue) (b : Int),
      l.foldl (fun acc i => acc - p i) b = b - (l.map p).sum := by
  intro l
  induction l with
  | nil => intro b; simp
  | cons i l ih =>
    intro b
    simp only [List.foldl_cons, List.map_cons, List.sum_cons, ih (b - p i)]
    omega

/-- The summed efficiency penalties count 5 per redundant, 3 per
inefficient-order and 4 per unreachable issue. -/
theorem sum_efficiencyPenalty (l : List RuleIssue) :
    (l.map efficiencyPenalty).sum =
      5 * (l.countP (fun i => i.issue_type == .redundant) : Int) +
      3 * (l.countP (fun i => i.issue_type == .inefficient_order) : Int) +
      4 * (l.countP (fun i => i.issue_type == .unreachable) : Int) := by
  induction l with
  | nil => simp
  | cons i l ih =>
    simp only [List.map_cons, List.sum_cons, List.countP_cons, ih]
    cases hi : i.issue_type <;>
      simp [efficiencyPenalty, hi] <;> push_cast <;> ring

/-- The summed security penalties count 20/15/10 per critical/high/medium
security-risk issue and 8 per overly-permissive issue (low security risks
cost nothing). -/
theorem sum_securityPenalty (l : List RuleIssue) :
    (l.map securityPenalty).sum =
      20 * (l.countP (fun i =>
        i.issue_type == .security_risk && i.severity == .critical) : Int) +
      15 * (l.countP (fun i =>
        i.issue_type == .security_risk && i.severity == .high) : Int) +
      10 * (l.countP (fun i =>
        i.issue_type == .security_risk && i.severity == .medium) : Int) +
      8 * (l.countP (fun i => i.issue_type == .overly_permissive) : Int) := by
  induction l with
  | nil => simp
  | cons i l ih =>
    simp only [List.map_cons, List.sum_cons, List.countP_cons, ih]
    cases hi : i.issue_type <;> cases hs : i.severity <;>
      simp [securityPenalty, hi, hs] <;> push_cast <;> ring

/-- Closed form of the efficiency score over any issue list. -/
theorem calculate_efficiency_score_eq (l : List RuleIssue) :
    calculate_efficiency_score l =
      max 0 (min 100 (100 -
        5 * (l.countP (fun i => i.issue_type == .redundant) : Int) -
        3 * (l.countP (fun i => i.issue_type == .inefficient_order) : Int) -
        4 * (l.countP (fun i => i.issue_type == .unreachable) : Int))) := by
  simp only [calculate_efficiency_score]
  rw [foldl_sub_eq, sum_efficiencyPenalty]
  omega

/-- Closed form of the security score over any issue list. -/
theorem calculate_security_score_eq (l : List RuleIssue) :
    calculate_security_score l =
      max 0 (min 100 (100 -
        20 * (l.countP (fun i =>
          i.issue_type == .security_risk && i.severity == .critical) : Int) -
        15 * (l.countP (fun i =>
          i.issue_type == .security_risk && i.severity == .high) : Int) -
        10 * (l.countP (fun i =>
          i.issue_type == .security_risk && i.severity == .medium) : Int) -
        8 * (l.countP (fun i => i.issue_type == .overly_permissive) : Int))) := by
  simp only [calculate_security_score]
  rw [foldl_sub_eq, sum_securityPenalty]
  omega

/-- Claim C5: for every analysis result, the efficiency score is 100 minus
5/3/4 per redundant/inefficient-order/unreachable issue clamped to [0, 100],
and the security score is 100 minus 20/15/10 per critical/high/medium
security-risk issue and 8 per overly-permissive issue, clamped to
[0, 100]. -/
theorem scores_formula (config : FirewallConfig) :
    (analyze_configuration config).rule_efficiency_score =
      max 0 (min 100 (100 -
        5 * ((analyze_configuration config).issues.countP
          (fun i => i.issue_type == .redundant) : Int) -
        3 * ((analyze_configuration config).issues.countP
          (fun i => i.issue_type == .inefficient_order) : Int) -
        4 * ((analyze_configuration config).issues.countP
          (fun i => i.issue_type == .unreachable) : Int))) ∧
    (analyze_configuration config).security_score =
      max 0 (min 100 (100 -
        20 * ((analyze_configuration config).issues.countP (fun i =>
          i.issue_type == .security_risk && i.severity == .critical) : Int) -
        15 * ((analyze_configuration config).issues.countP (fun i =>
          i.issue_type == .security_risk && i.severity == .high) : Int) -
        10 * ((analyze_configuration config).issues.countP (fun i =>
          i.issue_type == .security_risk && i.severity == .medium) : Int) -
        8 * ((analyze_configuration config).issues.countP
          (fun i => i.issue_type == .overly_permissive) : Int))) := by
  exact ⟨calculate_efficiency_score_eq (analyze_configuration config).issues,
    calculate_security_score_eq (analyze_configuration config).issues⟩

/-! ### Idempotence of delete application (claim C7) -/

/-- Removing the first occurrence yields a sublist. -/
theorem removeFirst_sublist (rs : List FirewallRule) (r : FirewallRule) :
    (removeFirst rs r).Sublist rs := by
  induction rs with
  | nil => exact List.Sublist.refl _
  | cons x xs ih =>
    rw [removeFirst]
    by_cases h : x == r
    · rw [if_pos h]; exact List.sublist_cons_self x xs
    · rw [if_neg h]; exact ih.cons₂ x

/-- `List.contains` agrees with membership (lawful `BEq` from decidable
equality). -/
theorem rules_contains_iff_mem (rs : List FirewallRule) (r : FirewallRule) :
    rs.contains r = true ↔ r ∈ rs :=
  List.elem_iff

/-- Removing the first occurrence of a present element lowers its count by
one. -/
theorem removeFirst_count_self (r : FirewallRule) :
    ∀ (rs : List FirewallRule), r ∈ rs →
      (removeFirst rs r).count r + 1 = rs.count r := by
  intro rs
  induction rs with
  | nil => intro h; cases h
  | cons x xs ih =>
    intro hmem
    rw [removeFirst]
    by_cases h : x = r
    · subst h
      rw [if_pos (by simp), List.count_cons]
      simp
    · have hx : (x == r) = false := by simp [h]
      have hne : ¬ r = x := fun he => h he.symm
      have hrx : (r == x) = false := by simp [hne]
      have hmem' : r ∈ xs := by
        rcases List.mem_cons.mp hmem with h' | h'
        · exact absurd h'.symm h
        · exact h'
      rw [if_neg (by simp [h]), List.count_cons, List.count_cons]
      simp only [hrx, hx, Bool.false_eq_true, if_false]
      have := ih hmem'
      omega

/-- The chain-dict delete step only shrinks the rule multiset. -/
theorem deleteInChains_rules_sublist
    (chains : List (String × List FirewallRule)) (r : FirewallRule) :
    (allRulesOfChains (deleteInChains chains r)).Sublist (allRulesOfChains chains) := by
  induction chains with
  | nil => exact List.Sublist.refl _
  | cons p rest ih =>
    obtain ⟨c, rs⟩ := p
    rw [deleteInChains]
    by_cases h : rs.contains r
    · rw [if_pos h]
      show ((removeFirst rs r) ++ allRulesOfChains rest).Sublist (rs ++ allRulesOfChains rest)
      exact (removeFirst_sublist rs r).append (List.Sublist.refl _)
    · rw [if_neg h]
      show (rs ++ allRulesOfChains (deleteInChains rest r)).Sublist (rs ++ allRulesOfChains rest)
      exact (List.Sublist.refl rs).append ih

/-- The per-rule delete step over all tables only shrinks the rule
multiset. -/
theorem apply_delete_rule_sublist
    (tables : List (String × List (String × List FirewallRule)))
    (r : FirewallRule) :
    (allRulesOfTables (apply_delete_rule tables r)).Sublist (allRulesOfTables tables) := by
  induction tables with
  | nil => exact List.Sublist.refl _
  | cons tc rest ih =>
    show (allRulesOfChains (deleteInChains tc.2 r) ++ _).Sublist
      (allRulesOfChains tc.2 ++ _)
    exact (deleteInChains_rules_sublist tc.2 r).append ih

/-- If a rule occurs at most once in a chain dict, deleting it makes it
absent. -/
theorem not_mem_deleteInChains
    (chains : List (String × List FirewallRule)) (r : FirewallRule)
    (hcnt : (allRulesOfChains chains).count r ≤ 1) :
    r ∉ allRulesOfChains (deleteInChains chains r) := by
  induction chains with
  | nil => intro h; cases h
  | cons p rest ih =>
    obtain ⟨c, rs⟩ := p
    have hsplit : (allRulesOfChains ((c, rs) :: rest)).count r =
        rs.count r + (allRulesOfChains rest).count r := by
      show (rs ++ allRulesOfChains rest).count r = _
      rw [List.count_append]
    rw [deleteInChains]
    by_cases h : rs.contains r = true
    · rw [if_pos h]
      have hmem : r ∈ rs := (rules_contains_iff_mem rs r).mp h
      have hc1 : (removeFirst rs r).count r + 1 = rs.count r :=
        removeFirst_count_self r rs hmem
      intro hcontra
      have hsplit2 : r ∈ removeFirst rs r ∨ r ∈ allRulesOfChains rest :=
        List.mem_append.mp hcontra
      rw [hsplit] at hcnt
      rcases hsplit2 with hin | hin
      · have := List.count_pos_iff.mpr hin
        omega
      · have := List.count_pos_iff.mpr hin
        omega
    · rw [if_neg h]
      have hnot : r ∉ rs := fun hmem => h ((rules_contains_iff_mem rs r).mpr hmem)
      intro hcontra
      have hsplit2 : r ∈ rs ∨ r ∈ allRulesOfChains (deleteInChains rest r) :=
        List.mem_append.mp hcontra
      rcases hsplit2 with hin | hin
      · exact hnot hin
      · rw [hsplit] at hcnt
        exact ih (by omega) hin

/-- If a rule occurs at most once in the whole policy, one delete step makes
it absent everywhere. -/
theorem not_mem_apply_delete_rule
    (tables : List (String × List (String × List FirewallRule)))
    (r : FirewallRule)
    (hcnt : (allRulesOfTables tables).count r ≤ 1) :
    r ∉ allRulesOfTables (apply_delete_rule tables r) := by
  induction tables with
  | nil => intro h; cases h
  | cons tc rest ih =>
    have hsplit : (allRulesOfTables (tc :: rest)).count r =
        (allRulesOfChains tc.2).count r + (allRulesOfTables rest).count r := by
      show (allRulesOfChains tc.2 ++ allRulesOfTables rest).count r = _
      rw [List.count_append]
    rw [hsplit] at hcnt
    intro hcontra
    have : r ∈ allRulesOfChains (deleteInChains tc.2 r) ∨
        r ∈ allRulesOfTables (apply_delete_rule rest r) := by
      simpa [apply_delete_rule, allRulesOfTables] using hcontra
    rcases this with hin | hin
    · exact not_mem_deleteInChains tc.2 r (by omega) hin
    · exact ih (by omega) hin

/-- Deleting an absent rule from a chain dict is a no-op. -/
theorem deleteInChains_of_not_mem
    (chains : List (String × List FirewallRule)) (r : FirewallRule)
    (h : r ∉ allRulesOfChains chains) : deleteInChains chains r = chains := by
  induction chains with
  | nil => rfl
  | cons p rest ih =>
    obtain ⟨c, rs⟩ := p
    have h1 : r ∉ rs := fun hm => h (List.mem_append_left _ hm)
    have h2 : r ∉ allRulesOfChains rest := fun hm => h (List.mem_append_right _ hm)
    have hc : ¬ rs.contains r = true := fun hcon =>
      h1 ((rules_contains_iff_mem rs r).mp hcon)
    rw [deleteInChains, if_neg hc, ih h2]

/-- Deleting an absent rule from the whole policy is a no-op. -/
theorem apply_delete_rule_of_not_mem
    (tables : List (String × List (String × List FirewallRule)))
    (r : FirewallRule) (h : r ∉ allRulesOfTables tables) :
    apply_delete_rule tables r = tables := by
  induction tables with
  | nil => rfl
  | cons tc rest ih =>
    have h1 : r ∉ allRulesOfChains tc.2 := fun hm => h (List.mem_append_left _ hm)
    have h2 : r ∉ allRulesOfTables rest := fun hm => h (List.mem_append_right _ hm)
    show (tc.1, deleteInChains tc.2 r) :: apply_delete_rule rest r = tc :: rest
    rw [deleteInChains_of_not_mem tc.2 r h1, ih h2]

/-- A sequence of delete steps only shrinks the rule multiset. -/
theorem foldl_delete_sublist (L : List FirewallRule) :
    ∀ (tables : List (String × List (String × List FirewallRule))),
      (allRulesOfTables (L.foldl apply_delete_rule tables)).Sublist
        (allRulesOfTables tables) := by
  induction L with
  | nil => intro tables; exact List.Sublist.refl _
  | cons r L ih =>
    intro tables
    exact (ih (apply_delete_rule tables r)).trans (apply_delete_rule_sublist tables r)

/-- After one full pass of deletions over a duplicate-free policy, none of
the deleted rules remains. -/
theorem foldl_delete_absent (L : List FirewallRule) :
    ∀ (tables : List (String × List (String × List FirewallRule))),
      (∀ x, (allRulesOfTables tables).count x ≤ 1) →
      ∀ r ∈ L, r ∉ allRulesOfTables (L.foldl apply_delete_rule tables) := by
  induction L with
  | nil => intro tables _ r hr; cases hr
  | cons r0 L ih =>
    intro tables hcnt r hr
    rw [List.foldl_cons]
    have hcnt' : ∀ x, (allRulesOfTables (apply_delete_rule tables r0)).count x ≤ 1 :=
      fun x => le_trans ((apply_delete_rule_sublist tables r0).count_le x) (hcnt x)
    rcases List.mem_cons.mp hr with rfl | hr'
    · intro hcontra
      exact not_mem_apply_delete_rule tables r (hcnt r)
        ((foldl_delete_sublist L (apply_delete_rule tables r)).subset hcontra)
    · exact ih (apply_delete_rule tables r0) hcnt' r hr'

/-- A pass of deletions of rules already absent is the identity. -/
theorem foldl_delete_id (L : List FirewallRule)
    (tables : List (String × List (String × List FirewallRule)))
    (h : ∀ r ∈ L, r ∉ allRulesOfTables tables) :
    L.foldl apply_delete_rule tables = tables := by
  induction L with
  | nil => rfl
  | cons r L ih =>
    rw [List.foldl_cons, apply_delete_rule_of_not_mem tables r (h r (by simp))]
    exact ih fun x hx => h x (by simp [hx])

/-- Membership through the stable insertion step. -/
theorem mem_insertDesc (x r : Recommendation) :
    ∀ (l : List Recommendation), x ∈ insertDesc r l ↔ x = r ∨ x ∈ l := by
  intro l
  induction l with
  | nil => simp [insertDesc]
  | cons y ys ih =>
    rw [insertDesc]
    by_cases h : y.priority.value ≤ r.priority.value
    · rw [if_pos h]; simp
    · rw [if_neg h]
      simp only [List.mem_cons, ih]
      tauto

/-- The stable sort does not invent recommendations. -/
theorem mem_of_sortByPriorityDesc (x : Recommendation) :
    ∀ (recs : List Recommendation), x ∈ sortByPriorityDesc recs → x ∈ recs := by
  intro recs
  induction recs with
  | nil => intro h; cases h
  | cons rec recs ih =>
    intro h
    rw [sortByPriorityDesc, List.foldr_cons] at h
    rcases (mem_insertDesc x rec _).mp h with h' | h'
    · simp [h']
    · exact List.mem_cons_of_mem _ (ih h')

/-- A pass over delete-only recommendations is the flattened sequence of
per-rule delete steps on the tables, the other config fields untouched. -/
theorem delete_recs_fold :
    ∀ (recs : List Recommendation) (config : FirewallConfig),
      (∀ rec ∈ recs, rec.rec_type = RecommendationType.delete_rule) →
      recs.foldl applyRecStep config =
        { config with
          tables := (recs.flatMap (fun rec => rec.affected_rules)).foldl
            apply_delete_rule config.tables } := by
  intro recs
  induction recs with
  | nil => intro config _; rfl
  | cons rec recs ih =>
    intro config hdel
    rw [List.foldl_cons]
    have h0 : rec.rec_type = .delete_rule := hdel rec (by simp)
    have hstep : applyRecStep config rec =
        { config with
          tables := rec.affected_rules.foldl apply_delete_rule config.tables } := by
      rw [applyRecStep, h0]
      rfl
    rw [hstep, ih _ (fun r hr => hdel r (by simp [hr]))]
    rw [List.flatMap_cons, List.foldl_append]

/-- Claim C7 (amended): over a policy in which no rule value occurs twice
(in particular any policy parsed from text, where line numbers are unique),
applying a plan of delete recommendations twice yields the same policy as
applying it once — the second pass finds nothing to delete.  (Without that
proviso the claim fails: see the counterexample, where a chain holds the
same rule value twice and the second pass removes the second copy.) -/
theorem delete_plan_idempotent (config : FirewallConfig)
    (recs : List Recommendation)
    (hdel : ∀ rec ∈ recs, rec.rec_type = RecommendationType.delete_rule)
    (hnodup : (allRulesOfTables config.tables).Nodup) :
    generate_optimized_config (generate_optimized_config config recs) recs =
      generate_optimized_config config recs := by
  have hdelS : ∀ rec ∈ sortByPriorityDesc recs,
      rec.rec_type = RecommendationType.delete_rule :=
    fun rec hr => hdel rec (mem_of_sortByPriorityDesc rec recs hr)
  have h1 : generate_optimized_config config recs =
      { config with
        tables := ((sortByPriorityDesc recs).flatMap
          (fun rec => rec.affected_rules)).foldl apply_delete_rule config.tables } :=
    delete_recs_fold _ config hdelS
  have h2 : generate_optimized_config (generate_optimized_config config recs) recs =
      { generate_optimized_config config recs with
        tables := ((sortByPriorityDesc recs).flatMap
          (fun rec => rec.affected_rules)).foldl apply_delete_rule
            (generate_optimized_config config recs).tables } :=
    delete_recs_fold _ _ hdelS
  rw [h2]
  have hcnt : ∀ x, (allRulesOfTables config.tables).count x ≤ 1 :=
    List.nodup_iff_count_le_one.mp hnodup
  have habs := foldl_delete_absent
    ((sortByPriorityDesc recs).flatMap (fun rec => rec.affected_rules))
    config.tables hcnt
  have htab : (generate_optimized_config config recs).tables =
      ((sortByPriorityDesc recs).flatMap (fun rec => rec.affected_rules)).foldl
        apply_delete_rule config.tables := by rw [h1]
  rw [htab, foldl_delete_id _ _ habs, ← htab]

/-- Claim C7 (counterexample): a policy whose chain holds the same rule value
twice is not idempotent under delete application — the first pass removes
one copy, the second pass removes the other. -/
theorem delete_twice_counterexample :
    generate_optimized_config
        (generate_optimized_config configDupRule [delRecSsh]) [delRecSsh] ≠
      generate_optimized_config configDupRule [delRecSsh] := by
  decide

/-- Witness for the amended C7 theorem at the concrete scenario policy. -/
theorem delete_plan_idempotent_witness :
    generate_optimized_config
        (generate_optimized_config configScenario1 [delRecSsh]) [delRecSsh] =
      generate_optimized_config configScenario1 [delRecSsh] :=
  delete_plan_idempotent configScenario1 [delRecSsh] (by decide) (by decide)

/-! ### Plan application: frame and decomposition (claim C8) -/

/-- The new rules attached to a plan's add-rule recommendations. -/
def planNewRules (recs : List Recommendation) : List FirewallRule :=
  recs.flatMap fun rec =>
    if rec.rec_type = RecommendationType.add_rule then rec.new_rules else []

/-- Dict-style lookup of a chain's rule list inside a table dict. -/
def lookupChain (tables : List (String × List (String × List FirewallRule)))
    (t c : String) : Option (List FirewallRule) :=
  (tables.lookup t).bind fun chains => chains.lookup c

/-- The rule lists reachable from a table dict decompose into a subsequence
of the original chain's rules followed by rules drawn from `pool`. -/
def DeltaOK (origT : List (String × List (String × List FirewallRule)))
    (pool : List FirewallRule)
    (tables : List (String × List (String × List FirewallRule))) : Prop :=
  ∀ t c rs, lookupChain tables t c = some rs →
    ∃ kept added, rs = kept ++ added ∧
      kept.Sublist ((lookupChain origT t c).getD []) ∧
      ∀ r ∈ added, r ∈ pool

/-- Looking a key up after mapping over the values. -/
theorem lookup_map_value {β γ : Type} (f : β → γ) :
    ∀ (l : List (String × β)) (k : String),
      (l.map (fun p => (p.1, f p.2))).lookup k = (l.lookup k).map f := by
  intro l
  induction l with
  | nil => intro k; rfl
  | cons p rest ih =>
    intro k
    obtain ⟨a, b⟩ := p
    show List.lookup k ((a, f b) :: _) = _
    rw [List.lookup_cons, List.lookup_cons]
    by_cases h : (k == a) = true
    · rw [h]; rfl
    · have hf : (k == a) = false := by simpa using h
      rw [hf]; exact ih k

/-- A chain looked up after the delete step is the original chain, possibly
with the first occurrence of the deleted rule removed. -/
theorem lookup_deleteInChains (r : FirewallRule) :
    ∀ (chains : List (String × List FirewallRule)) (c : String)
      (rs' : List FirewallRule),
      (deleteInChains chains r).lookup c = some rs' →
      ∃ rs, chains.lookup c = some rs ∧ (rs' = rs ∨ rs' = removeFirst rs r) := by
  intro chains
  induction chains with
  | nil => intro c rs' h; cases h
  | cons p rest ih =>
    obtain ⟨c0, rs0⟩ := p
    intro c rs' h
    rw [deleteInChains] at h
    by_cases hc : rs0.contains r
    · rw [if_pos hc] at h
      rw [List.lookup_cons] at h
      rw [List.lookup_cons]
      by_cases hk : (c == c0) = true
      · rw [hk] at h; rw [hk]
        exact ⟨rs0, rfl, Or.inr (Option.some_inj.mp h).symm⟩
      · have hkf : (c == c0) = false := by simpa using hk
        rw [hkf] at h; rw [hkf]
        exact ⟨rs', h, Or.inl rfl⟩
    · rw [if_neg hc] at h
      rw [List.lookup_cons] at h
      rw [List.lookup_cons]
      by_cases hk : (c == c0) = true
      · rw [hk] at h; rw [hk]
        exact ⟨rs0, rfl, Or.inl (Option.some_inj.mp h).symm⟩
      · have hkf : (c == c0) = false := by simpa using hk
        rw [hkf] at h; rw [hkf]
        exact ih c rs' h

/-- Removing from a concatenation removes from the left part when present
there, else from the right part. -/
theorem removeFirst_append (r : FirewallRule) :
    ∀ (a b : List FirewallRule),
      removeFirst (a ++ b) r =
        if a.contains r then removeFirst a r ++ b else a ++ removeFirst b r := by
  intro a
  induction a with
  | nil => intro b; simp
  | cons x a ih =>
    intro b
    rw [List.cons_append, removeFirst]
    by_cases hx : (x == r) = true
    · have hxr : x = r := by simpa using hx
      subst hxr
      rw [if_pos hx,
        if_pos ((rules_contains_iff_mem _ x).mpr (List.mem_cons_self x a)),
        removeFirst, if_pos (by simp)]
    · have hxr : ¬ x = r := by simpa using hx
      rw [if_neg hx, ih b]
      by_cases hc : a.contains r = true
      · rw [if_pos hc,
          if_pos ((rules_contains_iff_mem _ r).mpr
            (List.mem_cons_of_mem x ((rules_contains_iff_mem a r).mp hc))),
          removeFirst, if_neg hx, List.cons_append]
      · have hcf : r ∉ a := fun hm => hc ((rules_contains_iff_mem a r).mpr hm)
        rw [if_neg hc,
          if_neg (show ¬ (x :: a).contains r = true by
            intro hcon
            rcases List.mem_cons.mp ((rules_contains_iff_mem _ r).mp hcon) with he | hm
            · exact hxr he.symm
            · exact hcf hm),
          List.cons_append]

/-- The kept-plus-added decomposition survives removing a rule. -/
theorem rulesOK_removeFirst (orig pool cur : List FirewallRule) (r : FirewallRule)
    (h : ∃ kept added, cur = kept ++ added ∧ kept.Sublist orig ∧
      ∀ x ∈ added, x ∈ pool) :
    ∃ kept added, removeFirst cur r = kept ++ added ∧ kept.Sublist orig ∧
      ∀ x ∈ added, x ∈ pool := by
  obtain ⟨kept, added, rfl, hkept, hadded⟩ := h
  rw [removeFirst_append]
  by_cases hc : kept.contains r = true
  · rw [if_pos hc]
    exact ⟨removeFirst kept r, added, rfl,
      (removeFirst_sublist kept r).trans hkept, hadded⟩
  · rw [if_neg hc]
    exact ⟨kept, removeFirst added r, rfl, hkept,
      fun x hx => hadded x ((removeFirst_sublist added r).subset hx)⟩

/-- The per-rule delete step preserves the decomposition invariant. -/
theorem deltaOK_delete (origT : List (String × List (String × List FirewallRule)))
    (pool : List FirewallRule)
    (T : List (String × List (String × List FirewallRule)))
    (r : FirewallRule) (h : DeltaOK origT pool T) :
    DeltaOK origT pool (apply_delete_rule T r) := by
  intro t c rs' hl
  rw [lookupChain, apply_delete_rule,
    lookup_map_value (fun chains => deleteInChains chains r) T t] at hl
  cases hT : T.lookup t with
  | none => rw [hT] at hl; cases hl
  | some chains =>
    rw [hT] at hl
    obtain ⟨rs, hrs, hcase⟩ := lookup_deleteInChains r chains c rs' hl
    have hbase := h t c rs (by rw [lookupChain, hT]; exact hrs)
    rcases hcase with rfl | rfl
    · exact hbase
    · exact rulesOK_removeFirst _ pool rs r hbase

/-- A sequence of delete steps preserves the decomposition invariant. -/
theorem deltaOK_foldl_delete
    (origT : List (String × List (String × List FirewallRule)))
    (pool : List FirewallRule) :
    ∀ (L : List FirewallRule) (T : List (String × List (String × List FirewallRule))),
      DeltaOK origT pool T → DeltaOK origT pool (L.foldl apply_delete_rule T) := by
  intro L
  induction L with
  | nil => intro T h; exact h
  | cons r L ih =>
    intro T h
    rw [List.foldl_cons]
    exact ih _ (deltaOK_delete origT pool T r h)

/-- Lookup after appending a rule to a chain dict: the addressed chain gains
the rule at its end (or is created holding just the rule); other chains are
untouched. -/
theorem lookup_addToChain (key : String) (r : FirewallRule) :
    ∀ (chains : List (String × List FirewallRule)) (c : String),
      (addToChain chains key r).lookup c =
        if (c == key) = true then
          match chains.lookup key with
          | some rs => some (rs ++ [r])
          | none => some [r]
        else chains.lookup c := by
  intro chains
  induction chains with
  | nil =>
    intro c
    rw [addToChain, List.lookup_cons]
    by_cases hk : (c == key) = true
    · simp [hk]
    · have hkf : (c == key) = false := by simpa using hk
      simp [hkf]
  | cons p rest ih =>
    obtain ⟨c0, rs0⟩ := p
    intro c
    rw [addToChain]
    by_cases h0 : (c0 == key) = true
    · have hc0 : c0 = key := by simpa using h0
      subst hc0
      rw [if_pos h0]
      by_cases hk : (c == c0) = true
      · simp [List.lookup_cons, hk]
      · have hkf : (c == c0) = false := by simpa using hk
        simp [List.lookup_cons, hkf]
    · have h0f : (c0 == key) = false := by simpa using h0
      rw [if_neg h0]
      by_cases hk : (c == c0) = true
      · have hck : c = c0 := by simpa using hk
        subst hck
        simp [List.lookup_cons, h0f]
      · have hkf : (c == c0) = false := by simpa using hk
        have hsym : (key == c0) = false := by
          have h1 : ¬ c0 = key := by simpa using h0
          have h2 : ¬ key = c0 := fun he => h1 he.symm
          simp [h2]
        simp only [List.lookup_cons, hkf, ih c, hsym]

/-- Lookup after inserting one new rule at the tables level. -/
theorem lookup_addToTables (r : FirewallRule) :
    ∀ (tables : List (String × List (String × List FirewallRule))) (t : String),
      (addToTables tables r).lookup t =
        if (t == r.table) = true then
          match tables.lookup r.table with
          | some chains => some (addToChain chains r.chain r)
          | none => some [(r.chain, [r])]
        else tables.lookup t := by
  intro tables
  induction tables with
  | nil =>
    intro t
    rw [addToTables, List.lookup_cons]
    by_cases hk : (t == r.table) = true
    · simp [hk]
    · have hkf : (t == r.table) = false := by simpa using hk
      simp [hkf]
  | cons p rest ih =>
    obtain ⟨t0, chains0⟩ := p
    intro t
    rw [addToTables]
    by_cases h0 : (t0 == r.table) = true
    · have ht0 : t0 = r.table := by simpa using h0
      subst ht0
      rw [if_pos h0]
      by_cases hk : (t == r.table) = true
      · simp [List.lookup_cons, hk]
      · have hkf : (t == r.table) = false := by simpa using hk
        simp [List.lookup_cons, hkf]
    · have h0f : (t0 == r.table) = false := by simpa using h0
      rw [if_neg h0]
      by_cases hk : (t == t0) = true
      · have hck : t = t0 := by simpa using hk
        subst hck
        simp [List.lookup_cons, h0f]
      · have hkf : (t == t0) = false := by simpa using hk
        have hsym : (r.table == t0) = false := by
          have h1 : ¬ t0 = r.table := by simpa using h0
          have h2 : ¬ r.table = t0 := fun he => h1 he.symm
          simp [h2]
        simp only [List.lookup_cons, hkf, ih t, hsym]

/-- Appending a pool rule preserves the decomposition invariant. -/
theorem deltaOK_add (origT : List (String × List (String × List FirewallRule)))
    (pool : List FirewallRule)
    (T : List (String × List (String × List FirewallRule)))
    (r : FirewallRule) (hr : r ∈ pool) (h : DeltaOK origT pool T) :
    DeltaOK origT pool (addToTables T r) := by
  intro t c rs' hl
  rw [lookupChain, lookup_addToTables] at hl
  by_cases ht : (t == r.table) = true
  · rw [if_pos ht] at hl
    cases hT : T.lookup r.table with
    | none =>
      rw [hT] at hl
      rw [show (some [(r.chain, [r])]).bind
          (fun chains => chains.lookup c) = ([(r.chain, [r])] :
            List (String × List FirewallRule)).lookup c from rfl,
        List.lookup_cons] at hl
      by_cases hc : (c == r.chain) = true
      · rw [hc] at hl
        exact ⟨[], [r], (Option.some_inj.mp hl).symm, List.nil_sublist _,
          by intro x hx; rw [List.mem_singleton] at hx; subst hx; exact hr⟩
      · have hcf : (c == r.chain) = false := by simpa using hc
        rw [hcf] at hl
        cases hl
    | some chains =>
      rw [hT] at hl
      rw [show (some (addToChain chains r.chain r)).bind
          (fun cs => cs.lookup c) = (addToChain chains r.chain r).lookup c from rfl,
        lookup_addToChain] at hl
      have htt : t = r.table := by simpa using ht
      by_cases hc : (c == r.chain) = true
      · rw [if_pos hc] at hl
        cases hrs : chains.lookup r.chain with
        | none =>
          rw [hrs] at hl
          exact ⟨[], [r], (Option.some_inj.mp hl).symm, List.nil_sublist _,
            by intro x hx; rw [List.mem_singleton] at hx; subst hx; exact hr⟩
        | some rs =>
          rw [hrs] at hl
          have hcc : c = r.chain := by simpa using hc
          have hbase := h t c rs (by rw [lookupChain, htt, hT, hcc]; exact hrs)
          obtain ⟨kept, added, rfl, hkept, hadded⟩ := hbase
          refine ⟨kept, added ++ [r], ?_, hkept, ?_⟩
          · rw [← (Option.some_inj.mp hl), List.append_assoc]
          · intro x hx
            rcases List.mem_append.mp hx with hx | hx
            · exact hadded x hx
            · rw [List.mem_singleton] at hx; subst hx; exact hr
      · rw [if_neg hc] at hl
        exact h t c rs' (by rw [lookupChain, htt, hT]; exact hl)
  · rw [if_neg ht] at hl
    exact h t c rs' hl

/-- A sequence of pool-rule insertions preserves the decomposition
invariant. -/
theorem deltaOK_foldl_add
    (origT : List (String × List (String × List FirewallRule)))
    (pool : List FirewallRule) :
    ∀ (L : List FirewallRule) (T : List (String × List (String × List FirewallRule))),
      (∀ r ∈ L, r ∈ pool) → DeltaOK origT pool T →
      DeltaOK origT pool (L.foldl addToTables T) := by
  intro L
  induction L with
  | nil => intro T _ h; exact h
  | cons r L ih =>
    intro T hp h
    rw [List.foldl_cons]
    exact ih _ (fun x hx => hp x (List.mem_cons_of_mem r hx))
      (deltaOK_add origT pool T r (hp r (List.mem_cons_self r L)) h)

/-- One recommendation step never touches the chain-info and comment fields
and preserves the decomposition invariant when all of the step's attachable
new rules live in the pool. -/
theorem applyRecStep_frame
    (origT : List (String × List (String × List FirewallRule)))
    (pool : List FirewallRule) (config : FirewallConfig) (rec : Recommendation)
    (hpool : rec.rec_type = RecommendationType.add_rule →
      ∀ r ∈ rec.new_rules, r ∈ pool)
    (h : DeltaOK origT pool config.tables) :
    (applyRecStep config rec).chains = config.chains ∧
    (applyRecStep config rec).comments = config.comments ∧
    DeltaOK origT pool (applyRecStep config rec).tables := by
  cases htype : rec.rec_type with
  | delete_rule =>
    refine ⟨by simp [applyRecStep, htype, apply_delete_recommendation],
      by simp [applyRecStep, htype, apply_delete_recommendation], ?_⟩
    have heq : applyRecStep config rec = apply_delete_recommendation config rec := by
      simp [applyRecStep, htype]
    rw [heq]
    exact deltaOK_foldl_delete origT pool rec.affected_rules config.tables h
  | add_rule =>
    refine ⟨by simp [applyRecStep, htype, apply_add_recommendation],
      by simp [applyRecStep, htype, apply_add_recommendation], ?_⟩
    have heq : applyRecStep config rec = apply_add_recommendation config rec := by
      simp [applyRecStep, htype]
    rw [heq]
    exact deltaOK_foldl_add origT pool rec.new_rules config.tables (hpool htype) h
  | reorder_rules => exact ⟨by simp [applyRecStep, htype],
      by simp [applyRecStep, htype], by simpa [applyRecStep, htype] using h⟩
  | merge_rules => exact ⟨by simp [applyRecStep, htype],
      by simp [applyRecStep, htype], by simpa [applyRecStep, htype] using h⟩
  | split_rule => exact ⟨by simp [applyRecStep, htype],
      by simp [applyRecStep, htype], by simpa [applyRecStep, htype] using h⟩
  | modify_rule => exact ⟨by simp [applyRecStep, htype],
      by simp [applyRecStep, htype], by simpa [applyRecStep, htype] using h⟩
  | add_logging => exact ⟨by simp [applyRecStep, htype],
      by simp [applyRecStep, htype], by simpa [applyRecStep, htype] using h⟩
  | restrict_source => exact ⟨by simp [applyRecStep, htype],
      by simp [applyRecStep, htype], by simpa [applyRecStep, htype] using h⟩

/-- The recommendation fold preserves the frame and the decomposition
invariant. -/
theorem foldl_applyRecStep_frame
    (origT : List (String × List (String × List FirewallRule)))
    (pool : List FirewallRule) :
    ∀ (l : List Recommendation) (config : FirewallConfig),
      (∀ rec ∈ l, rec.rec_type = RecommendationType.add_rule →
        ∀ r ∈ rec.new_rules, r ∈ pool) →
      DeltaOK origT pool config.tables →
      (l.foldl applyRecStep config).chains = config.chains ∧
      (l.foldl applyRecStep config).comments = config.comments ∧
      DeltaOK origT pool (l.foldl applyRecStep config).tables := by
  intro l
  induction l with
  | nil => intro config _ h; exact ⟨rfl, rfl, h⟩
  | cons rec l ih =>
    intro config hp h
    rw [List.foldl_cons]
    have hstep := applyRecStep_frame origT pool config rec
      (hp rec (List.mem_cons_self rec l)) h
    have hrest := ih (applyRecStep config rec)
      (fun x hx => hp x (List.mem_cons_of_mem rec hx)) hstep.2.2
    exact ⟨hrest.1.trans hstep.1, hrest.2.1.trans hstep.2.1, hrest.2.2⟩

/-- Claim C8: applying a plan is a pure function of the input policy (the
code deep-copies before mutating, modelled here by value semantics, so the
original policy value is unchanged); the result keeps the chain-info and
comment fields intact, and every chain of the result is a subsequence of
that chain's original rules — surviving rules keep their exact values,
hence their verbatim `raw_rule` text and relative order — followed by rules
attached to the plan's add-rule recommendations (appended new rules). -/
theorem apply_plan_frame (config : FirewallConfig) (recs : List Recommendation) :
    (generate_optimized_config config recs).chains = config.chains ∧
    (generate_optimized_config config recs).comments = config.comments ∧
    ∀ t c rs, lookupChain (generate_optimized_config config recs).tables t c = some rs →
      ∃ kept added, rs = kept ++ added ∧
        kept.Sublist ((lookupChain config.tables t c).getD []) ∧
        ∀ r ∈ added, r ∈ planNewRules recs := by
  have hinit : DeltaOK config.tables (planNewRules recs) config.tables := by
    intro t c rs hl
    exact ⟨rs, [], (List.append_nil rs).symm, by rw [hl]; exact List.Sublist.refl rs,
      by intro r hr; cases hr⟩
  have hpool : ∀ rec ∈ sortByPriorityDesc recs,
      rec.rec_type = RecommendationType.add_rule → ∀ r ∈ rec.new_rules,
        r ∈ planNewRules recs := by
    intro rec hrec htype r hr
    rw [planNewRules, List.mem_flatMap]
    exact ⟨rec, mem_of_sortByPriorityDesc rec recs hrec, by rw [if_pos htype]; exact hr⟩
  exact foldl_applyRecStep_frame config.tables (planNewRules recs)
    (sortByPriorityDesc recs) config hpool hinit

/-- Witness for the C8 theorem at the concrete scenario policy and a
one-recommendation plan. -/
theorem apply_plan_frame_witness :
    (generate_optimized_config configScenario1 [delRecSsh]).chains =
      configScenario1.chains ∧
    (generate_optimized_config configScenario1 [delRecSsh]).comments =
      configScenario1.comments := by
  have h := apply_plan_frame configScenario1 [delRecSsh]
  exact ⟨h.1, h.2.1⟩

end FirewallOpt
